import Mathlib

/-
Verification of the Archive-31 downloader (archive_31_vers_pdf.py) against its
natural-language specification.

The program is shallowly embedded: strings are lists of characters, Python ints
are Nat, Python floats are modelled as exact rationals (the constants 1.1, 0.7,
0.9 and the byte/megabyte conversions that appear both in the code and in the
specification), network replies and image decoding/encoding are oracles passed
in as parameters, and the packer's while loop is run on explicit fuel (a result
of none models a run that has not terminated within the given number of
iterations).
-/

/-- Strings of the embedding: Python str values as lists of characters. -/
abbrev Str := List Char

/-- An ASCII decimal digit (models the regex class for digits; Python's re module
also accepts non-ASCII Unicode decimal digits, which this embedding does not
model — all URLs of this source are ASCII). -/
def isDigitCh (c : Char) : Bool := 48 ≤ c.toNat && c.toNat ≤ 57

/-- Every character of the string is an ASCII digit. -/
def isDigits (s : Str) : Bool := s.all isDigitCh

/-- Numeric value of a digit character. -/
def charVal (c : Char) : Nat := c.toNat - 48

/-- The ASCII character of a decimal digit (used by Python's decimal formatting). -/
def digitChar (d : Nat) : Char :=
  match d with
  | 0 => '0' | 1 => '1' | 2 => '2' | 3 => '3' | 4 => '4'
  | 5 => '5' | 6 => '6' | 7 => '7' | 8 => '8' | _ => '9'

/-- Decimal representation of a natural number, most significant digit first
(models Python str(n) for a nonnegative int). -/
def natRepr (n : Nat) : Str :=
  if n < 10 then [digitChar n]
  else natRepr (n / 10) ++ [digitChar (n % 10)]
decreasing_by exact Nat.div_lt_self (by omega) (by omega)

/-- Zero padding to width w: models the Python format specifier {:0wd} on a
nonnegative int — pads with zeros on the left, never truncates. -/
def zpad (w n : Nat) : Str := List.replicate (w - (natRepr n).length) '0' ++ natRepr n

/-- Value of a digit string, most significant digit first (models Python int(s)
on a string of ASCII digits). -/
def decodeD : Str → Nat
  | [] => 0
  | c :: cs => charVal c * 10 ^ cs.length + decodeD cs

theorem decodeD_cons (c : Char) (cs : Str) :
    decodeD (c :: cs) = charVal c * 10 ^ cs.length + decodeD cs := rfl

theorem decodeD_append (xs ys : Str) :
    decodeD (xs ++ ys) = decodeD xs * 10 ^ ys.length + decodeD ys := by
  induction xs with
  | nil => simp [decodeD]
  | cons c cs ih =>
    rw [List.cons_append, decodeD_cons, decodeD_cons, ih, List.length_append, pow_add]
    ring

theorem charVal_lt (c : Char) (h : isDigitCh c = true) : charVal c < 10 := by
  simp only [isDigitCh, Bool.and_eq_true, decide_eq_true_eq] at h
  simp only [charVal]
  omega

theorem decodeD_lt (s : Str) (h : isDigits s = true) : decodeD s < 10 ^ s.length := by
  induction s with
  | nil => simp [decodeD]
  | cons c cs ih =>
    simp only [isDigits, List.all_cons, Bool.and_eq_true] at h
    have h1 := charVal_lt c h.1
    have h2 := ih h.2
    rw [decodeD_cons, List.length_cons, pow_succ]
    nlinarith

theorem charVal_digitChar (d : Nat) (h : d < 10) : charVal (digitChar d) = d := by
  interval_cases d <;> rfl

theorem isDigitCh_digitChar (d : Nat) (h : d < 10) : isDigitCh (digitChar d) = true := by
  interval_cases d <;> rfl

theorem natRepr_digits (n : Nat) : isDigits (natRepr n) = true := by
  induction n using Nat.strong_induction_on with
  | _ n ih =>
    rw [natRepr]
    by_cases h : n < 10
    · rw [if_pos h]
      simp only [isDigits, List.all_cons, List.all_nil, Bool.and_true]
      exact isDigitCh_digitChar n h
    · have hd : n / 10 < n := Nat.div_lt_self (by omega) (by omega)
      have hq := ih (n / 10) hd
      rw [if_neg h]
      simp only [isDigits, List.all_append, List.all_cons, List.all_nil, Bool.and_true,
        Bool.and_eq_true]
      exact ⟨hq, isDigitCh_digitChar _ (Nat.mod_lt _ (by omega))⟩

theorem natRepr_ne_nil (n : Nat) : natRepr n ≠ [] := by
  rw [natRepr]
  by_cases h : n < 10 <;> simp [h]

theorem decodeD_natRepr (n : Nat) : decodeD (natRepr n) = n := by
  induction n using Nat.strong_induction_on with
  | _ n ih =>
    rw [natRepr]
    by_cases h : n < 10
    · rw [if_pos h]
      simp [decodeD, charVal_digitChar n h]
    · have hd : n / 10 < n := Nat.div_lt_self (by omega) (by omega)
      rw [if_neg h, decodeD_append, ih (n / 10) hd]
      simp only [decodeD_cons, List.length_nil, pow_zero, mul_one, decodeD,
        List.length_cons, pow_one]
      rw [charVal_digitChar (n % 10) (Nat.mod_lt _ (by omega))]
      omega

theorem natRepr_length_le (w : Nat) :
    ∀ n, 1 ≤ w → n < 10 ^ w → (natRepr n).length ≤ w := by
  induction w with
  | zero => intro n hw h; omega
  | succ w ih =>
    intro n hw h
    rw [natRepr]
    by_cases hn : n < 10
    · rw [if_pos hn]; simp
    · have hw1 : 1 ≤ w := by
        by_contra hw0
        have hw2 : w = 0 := by omega
        subst hw2
        simp at h
        omega
      have hq : n / 10 < 10 ^ w := by
        rw [Nat.div_lt_iff_lt_mul (by omega)]
        calc n < 10 ^ (w + 1) := h
        _ = 10 ^ w * 10 := by ring
      have := ih (n / 10) hw1 hq
      rw [if_neg hn]
      simp only [List.length_append, List.length_cons, List.length_nil]
      omega

theorem zpad_length (w n : Nat) (hw : 1 ≤ w) (h : n < 10 ^ w) : (zpad w n).length = w := by
  have := natRepr_length_le w n hw h
  simp only [zpad, List.length_append, List.length_replicate]
  omega

theorem zpad_length_ge (w n : Nat) : w ≤ (zpad w n).length := by
  simp only [zpad, List.length_append, List.length_replicate]
  omega

theorem zpad_digits (w n : Nat) : isDigits (zpad w n) = true := by
  have h := natRepr_digits n
  simp only [zpad, isDigits, List.all_append, List.all_eq_true, Bool.and_eq_true] at h ⊢
  refine ⟨fun c hc => ?_, h⟩
  rw [List.eq_of_mem_replicate hc]
  rfl

theorem decodeD_replicate_zero (k : Nat) : decodeD (List.replicate k '0') = 0 := by
  induction k with
  | zero => rfl
  | succ k ih => simp [List.replicate_succ, decodeD_cons, ih, charVal]

theorem decodeD_zpad (w n : Nat) : decodeD (zpad w n) = n := by
  simp [zpad, decodeD_append, decodeD_replicate_zero, decodeD_natRepr]

theorem char_toNat_inj (c d : Char) (h : c.toNat = d.toNat) : c = d := by
  have hc := Char.ofNat_toNat c
  rw [h, Char.ofNat_toNat d] at hc
  exact hc.symm

theorem decodeD_head_lt (c d : Char) (u v : Str) (hu : isDigits u = true)
    (hl : u.length = v.length) (hcd : charVal c < charVal d) :
    decodeD (c :: u) < decodeD (d :: v) := by
  have hub := decodeD_lt u hu
  rw [hl] at hub
  rw [decodeD_cons, decodeD_cons, hl]
  have hstep : (charVal c + 1) * 10 ^ v.length ≤ charVal d * 10 ^ v.length :=
    Nat.mul_le_mul_right _ (by omega)
  nlinarith

theorem decodeD_inj (u v : Str) (hu : isDigits u = true) (hv : isDigits v = true)
    (hl : u.length = v.length) (h : decodeD u = decodeD v) : u = v := by
  induction u generalizing v with
  | nil =>
    cases v with
    | nil => rfl
    | cons d vs => simp at hl
  | cons c us ih =>
    cases v with
    | nil => simp at hl
    | cons d vs =>
      simp only [isDigits, List.all_cons, Bool.and_eq_true] at hu hv
      simp only [List.length_cons, Nat.succ_inj] at hl
      rcases Nat.lt_trichotomy (charVal c) (charVal d) with hlt | heq | hgt
      · have := decodeD_head_lt c d us vs hu.2 hl hlt
        omega
      · have hc : c = d := by
          have b1 := hu.1
          have b2 := hv.1
          simp only [isDigitCh, Bool.and_eq_true, decide_eq_true_eq] at b1 b2
          apply char_toNat_inj
          simp only [charVal] at heq
          omega
        subst hc
        have htail : decodeD us = decodeD vs := by
          rw [decodeD_cons, decodeD_cons, hl] at h
          omega
        rw [ih vs hu.2 hv.2 hl htail]
      · have := decodeD_head_lt d c vs us hv.2 hl.symm hgt
        omega

theorem zpad_decodeD (d : Str) (h : isDigits d = true) (hne : d ≠ []) :
    zpad d.length (decodeD d) = d := by
  have hw : 1 ≤ d.length := by
    cases d with
    | nil => exact absurd rfl hne
    | cons c cs => simp
  have hlt : decodeD d < 10 ^ d.length := decodeD_lt d h
  exact decodeD_inj _ _ (zpad_digits _ _) h
    (zpad_length d.length (decodeD d) hw hlt) (decodeD_zpad _ _)

/-- Python string comparison: lexicographic by code point (non-strict). -/
def lexLe : Str → Str → Bool
  | [], _ => true
  | _ :: _, [] => false
  | a :: as, b :: bs => if a < b then true else if b < a then false else lexLe as bs

/-- Python string comparison: lexicographic by code point (strict). -/
def lexLt : Str → Str → Bool
  | _, [] => false
  | [], _ :: _ => true
  | a :: as, b :: bs => if a < b then true else if b < a then false else lexLt as bs

theorem lexLe_refl (s : Str) : lexLe s s = true := by
  induction s with
  | nil => rfl
  | cons c cs ih => simp [lexLe, ih, lt_irrefl]

theorem lexLe_total (a b : Str) : lexLe a b = true ∨ lexLe b a = true := by
  induction a generalizing b with
  | nil => left; rfl
  | cons c cs ih =>
    cases b with
    | nil => right; rfl
    | cons d ds =>
      rcases lt_trichotomy c d with h | h | h
      · left; simp [lexLe, h]
      · subst h
        rcases ih ds with h2 | h2
        · left; simp [lexLe, lt_irrefl, h2]
        · right; simp [lexLe, lt_irrefl, h2]
      · right; simp [lexLe, h]

theorem lexLe_trans (a b c : Str) (h1 : lexLe a b = true) (h2 : lexLe b c = true) :
    lexLe a c = true := by
  induction a generalizing b c with
  | nil => rfl
  | cons x xs ih =>
    cases b with
    | nil => simp [lexLe] at h1
    | cons y ys =>
      cases c with
      | nil => simp [lexLe] at h2
      | cons z zs =>
        simp only [lexLe] at h1 h2 ⊢
        rcases lt_trichotomy x y with hxy | hxy | hxy
        · rcases lt_trichotomy y z with hyz | hyz | hyz
          · simp [lt_trans hxy hyz]
          · subst hyz; simp [hxy]
          · simp [hyz, not_lt_of_gt hyz] at h2
        · subst hxy
          rcases lt_trichotomy x z with hyz | hyz | hyz
          · simp [hyz]
          · subst hyz
            simp only [lt_irrefl, if_false] at h1 h2 ⊢
            exact ih ys zs h1 h2
          · simp [hyz, not_lt_of_gt hyz] at h2
        · simp [hxy, not_lt_of_gt hxy] at h1

theorem lexLe_antisymm (a b : Str) (h1 : lexLe a b = true) (h2 : lexLe b a = true) :
    a = b := by
  induction a generalizing b with
  | nil =>
    cases b with
    | nil => rfl
    | cons y ys => simp [lexLe] at h2
  | cons x xs ih =>
    cases b with
    | nil => simp [lexLe] at h1
    | cons y ys =>
      simp only [lexLe] at h1 h2
      rcases lt_trichotomy x y with hxy | hxy | hxy
      · simp [hxy, not_lt_of_gt hxy] at h2
      · subst hxy
        simp only [lt_irrefl, if_false] at h1 h2
        rw [ih ys h1 h2]
      · simp [hxy, not_lt_of_gt hxy] at h1

instance : IsAntisymm Str (fun a b => lexLe a b = true) :=
  ⟨fun a b h1 h2 => lexLe_antisymm a b h1 h2⟩

theorem lexLt_le (u v : Str) (h : lexLt u v = true) : lexLe u v = true := by
  induction u generalizing v with
  | nil => rfl
  | cons c cs ih =>
    cases v with
    | nil => simp [lexLt] at h
    | cons d ds =>
      simp only [lexLt] at h
      simp only [lexLe]
      rcases lt_trichotomy c d with hcd | hcd | hcd
      · simp [hcd]
      · subst hcd
        simp only [lt_irrefl, if_false] at h ⊢
        exact ih ds h
      · simp [hcd, not_lt_of_gt hcd] at h

theorem lexLt_append (u v s t : Str) (hl : u.length = v.length) (h : lexLt u v = true) :
    lexLt (u ++ s) (v ++ t) = true := by
  induction u generalizing v with
  | nil =>
    cases v with
    | nil => simp [lexLt] at h
    | cons d ds => simp at hl
  | cons c cs ih =>
    cases v with
    | nil => simp at hl
    | cons d ds =>
      simp only [List.length_cons, Nat.succ_inj] at hl
      simp only [lexLt] at h
      simp only [List.cons_append, lexLt]
      rcases lt_trichotomy c d with hcd | hcd | hcd
      · simp [hcd]
      · subst hcd
        simp only [lt_irrefl, if_false] at h ⊢
        exact ih ds hl h
      · simp [hcd, not_lt_of_gt hcd] at h

theorem lexLt_prepend (p u v : Str) (h : lexLt u v = true) :
    lexLt (p ++ u) (p ++ v) = true := by
  induction p with
  | nil => simpa
  | cons c cs ih => simp [lexLt, lt_irrefl, ih]

theorem char_lt_of_toNat_lt (c d : Char) (h : c.toNat < d.toNat) : c < d := by
  simp only [Char.lt_def]
  exact h

theorem decode_lt_lexLt (u v : Str) (hu : isDigits u = true) (hv : isDigits v = true)
    (hl : u.length = v.length) (h : decodeD u < decodeD v) : lexLt u v = true := by
  induction u generalizing v with
  | nil =>
    cases v with
    | nil => simp [decodeD] at h
    | cons d ds => simp at hl
  | cons c cs ih =>
    cases v with
    | nil => simp at hl
    | cons d ds =>
      simp only [isDigits, List.all_cons, Bool.and_eq_true] at hu hv
      simp only [List.length_cons, Nat.succ_inj] at hl
      simp only [lexLt]
      rcases Nat.lt_trichotomy (charVal c) (charVal d) with hcd | hcd | hcd
      · have b1 := hu.1
        have b2 := hv.1
        simp only [isDigitCh, Bool.and_eq_true, decide_eq_true_eq] at b1 b2
        have : c < d := char_lt_of_toNat_lt c d (by simp only [charVal] at hcd; omega)
        simp [this]
      · have hc : c = d := by
          have b1 := hu.1
          have b2 := hv.1
          simp only [isDigitCh, Bool.and_eq_true, decide_eq_true_eq] at b1 b2
          apply char_toNat_inj
          simp only [charVal] at hcd
          omega
        subst hc
        simp only [lt_irrefl, if_false]
        apply ih ds hu.2 hv.2 hl
        rw [decodeD_cons, decodeD_cons, hl] at h
        omega
      · have := decodeD_head_lt d c ds cs hv.2 hl.symm hcd
        omega

/-- The pattern dictionary built by analyser_url: either the folder shape
(page number in the folder segment and again in the filename; digits is the
literal 4 of the dictionary) or the simple shape (page number right before the
suffix; digits is the length of the matched digit group). -/
inductive Pattern where
  | dossier (pre middle suf : Str) (digits : Nat)
  | simple (pre suf : Str) (digits : Nat)
deriving DecidableEq

/-- The last thirteen characters of the folder regex, anchored at the end:
group 4 (four digits) then group 5 (an underscore, four digits, ".jpg"). -/
def checkTail13 (tl : Str) : Bool :=
  tl.length == 13 && isDigits (tl.take 4) && (tl.drop 4).take 1 == ['_'] &&
    isDigits ((tl.drop 5).take 4) && tl.drop 9 == ('.' :: 'j' :: 'p' :: 'g' :: [])

/-- The part of the folder regex after the slash: a nonempty slash-free group 3,
then the fixed-length thirteen-character tail (the end anchor forces the split
point, so the greedy group 3 is deterministic here). Returns (group3, group4,
group5). -/
def checkAfterSlash (rest2 : Str) : Option (Str × Str × Str) :=
  if 14 ≤ rest2.length then
    let mid := rest2.take (rest2.length - 13)
    let tl := rest2.drop (rest2.length - 13)
    if mid.all (fun c => c != '/') && checkTail13 tl then some (mid, tl.take 4, tl.drop 4)
    else none
  else none

/-- Attempt the folder regex with the lazy group 1 ending exactly here: four
digits (group 2), a slash, then the rest of the pattern. Returns (group2,
group3, group4, group5). -/
def tryFolderHere (rest : Str) : Option (Str × Str × Str × Str) :=
  match rest with
  | d1 :: d2 :: d3 :: d4 :: c :: rest2 =>
    if isDigitCh d1 && isDigitCh d2 && isDigitCh d3 && isDigitCh d4 && c == '/' then
      match checkAfterSlash rest2 with
      | some (mid, g4, g5) => some ([d1, d2, d3, d4], mid, g4, g5)
      | none => none
    else none
  | _ => none

/-- Backtracking scan for the lazy group 1 of the folder regex
(.*?)(dddd)/([^/]+)(dddd)(_dddd.jpg)$ with a start anchor: try every start
position left to right; a dot cannot consume a newline, so the scan stops at
one. acc accumulates the characters consumed by group 1. -/
def folderScan : Str → Str → Option Pattern
  | _, [] => none
  | acc, c :: cs =>
    match tryFolderHere (c :: cs) with
    | some (_, mid, _, g5) => some (Pattern.dossier acc mid g5 4)
    | none => if c == '\n' then none else folderScan (acc ++ [c]) cs

/-- The case-insensitive ".jpg" of the simple fallback regex. -/
def jpgSufCI (s : Str) : Bool :=
  match s with
  | [d, j, p, g] =>
    d == '.' && (j == 'j' || j == 'J') && (p == 'p' || p == 'P') && (g == 'g' || g == 'G')
  | _ => false

/-- The simple fallback regex (.*?)(dddd)(.jpg)$ with IGNORECASE and a start
anchor: the two trailing groups have fixed length so the decomposition is
forced; group 1 (a dot-star) cannot contain a newline. Returns (group1, group2,
group3). -/
def simpleMatch (url : Str) : Option (Str × Str × Str) :=
  if 8 ≤ url.length then
    let g1 := url.take (url.length - 8)
    let g2 := (url.drop (url.length - 8)).take 4
    let g3 := url.drop (url.length - 4)
    if g1.all (fun c => c != '\n') && isDigits g2 && jpgSufCI g3 then some (g1, g2, g3)
    else none
  else none

/-- Models the end anchor of Python's re: the dollar also matches immediately
before a newline that ends the string. -/
def stripFinalNewline (url : Str) : Str :=
  if url.getLast? == some '\n' then url.dropLast else url

/-- analyser_url from the source: try the folder regex, then the simple regex,
else none. Percent-decoding (requests.utils.unquote, an external library call
performed first by the source) is treated as input preparation: this function
takes the decoded URL. -/
def analyser_url (url : Str) : Option Pattern :=
  let u := stripFinalNewline url
  match folderScan [] u with
  | some p => some p
  | none =>
    match simpleMatch u with
    | some (g1, g2, g3) => some (Pattern.simple g1 g3 g2.length)
    | none => none

/-- generer_url from the source: the folder shape renders the page number twice
with the fixed {:04d} format; the simple shape renders it once, zero-padded to
the recorded digit count. -/
def generer_url (pat : Pattern) (page : Nat) : Str :=
  match pat with
  | Pattern.dossier pre mid suf _ => pre ++ zpad 4 page ++ '/' :: (mid ++ zpad 4 page ++ suf)
  | Pattern.simple pre suf digits => pre ++ zpad digits page ++ suf

/-- An HTTP reply as the fetcher observes it: status code and payload length
(the payload bytes themselves only matter through their count here; persisting
them to disk is an external capability). -/
structure Response where
  status : Nat
  contentLen : Nat
deriving DecidableEq

/-- The failure reason "size={}".format(len(response.content)). -/
def sizeMsg (len : Nat) : Str := ("size=".data) ++ natRepr len

/-- The destination filename os.path.join(output_dir, "page_{:04d}.jpg"),
with the POSIX separator. -/
def pageFileName (dir : Str) (page : Nat) : Str :=
  dir ++ '/' :: ("page_".data) ++ zpad 4 page ++ (".jpg".data)

/-- telecharger_page from the source. The network reply is passed in: the error
case of Except models a raised exception carrying str(e). Success requires
status 200 and a payload strictly larger than 10000 bytes; on success the
destination path is returned, otherwise None plus a reason. Mirrors the
(page, filename-or-None, error-or-None) result triple. -/
def telecharger_page (reply : Except Str Response) (dir : Str) (page : Nat) :
    Nat × Option Str × Option Str :=
  match reply with
  | Except.error e => (page, none, some e)
  | Except.ok r =>
    if r.status = 200 ∧ 10000 < r.contentLen then (page, some (pageFileName dir page), none)
    else (page, none, some (sizeMsg r.contentLen))

/-- The collection loop of main: as each future completes (completed lists the
pages in completion order — an arbitrary permutation of the submitted tasks,
since workers run in parallel), append the returned path to fichiers or the
(page, reason) pair to erreurs. -/
def collectResults (backend : Nat → Except Str Response) (dir : Str)
    (completed : List Nat) : List Str × List (Nat × Option Str) :=
  completed.foldl
    (fun acc page =>
      match telecharger_page (backend page) dir page with
      | (_, some path, _) => (acc.1 ++ [path], acc.2)
      | (p, none, err) => (acc.1, acc.2 ++ [(p, err)]))
    ([], [])

/-- The fetch stage of main: collect the per-page outcomes in completion order,
then sort the success paths (fichiers.sort(); Python sorts strings
lexicographically by code point); the error list keeps completion order. -/
def fetchAll (backend : Nat → Except Str Response) (dir : Str)
    (completed : List Nat) : List Str × List (Nat × Option Str) :=
  let r := collectResults backend dir completed
  (r.1.mergeSort lexLe, r.2)

/-- The startup portion of main: when the sample URL matches neither pattern the
run aborts before building a single fetch task (so before any network
activity); otherwise one task (page, url) per page of the requested range. -/
def mainTasks (sampleUrl : Str) (pageDebut nbPages : Nat) : List (Nat × Str) :=
  match analyser_url sampleUrl with
  | none => []
  | some pat => (List.range' pageDebut nbPages).map fun p => (p, generer_url pat p)

/-- One output document of the packer. The source records the
(pdf_name, taille_mo, len(images)) triple in pdfs_crees; content additionally
records which image files were written into the document
(images[0].save(..., append_images=images[1:])). -/
structure Bundle where
  name : Str
  tailleMo : ℚ
  pages : Nat
  content : List Str

/-- The inputs of creer_pdf_split. Image decoding and encoding are external
capabilities (Pillow): decodeOk tells whether Image.open succeeds on a file,
and pdfSizeBytes gives the byte size of the document written from a given list
of decoded images. max_width only influences the encoded size, so it is folded
into the pdfSizeBytes oracle. -/
structure PackCfg where
  fichiers : List Str
  maxSizeMb : ℚ
  decodeOk : Str → Bool
  pdfSizeBytes : List Str → Nat
  outputBase : Str

/-- The loop state of creer_pdf_split: the page-count estimate, the output
index, the consumption cursor and the bundles written so far. -/
structure PackSt where
  pagesParPdf : Nat
  pdfNum : Nat
  idx : Nat
  pdfsCrees : List Bundle

/-- os.path.getsize(pdf_name) / (1024*1024): the measured size in megabytes. -/
def tailleMoOf (cfg : PackCfg) (images : List Str) : ℚ :=
  (cfg.pdfSizeBytes images : ℚ) / (1024 * 1024)

/-- The output name "{}_{}.pdf".format(output_base, pdf_num). -/
def pdfName (base : Str) (num : Nat) : Str := base ++ '_' :: natRepr num ++ (".pdf".data)

/-- Python's int() on the nonnegative values this program applies it to
(estimates, sizes and their quotients), where truncation towards zero and floor
agree. -/
def pyInt (q : ℚ) : Nat := (⌊q⌋).toNat

/-- One iteration of the while loop of creer_pdf_split (executed when
idx < len(fichiers)): slice the batch, decode it (failures are skipped), and
either advance past an all-failed batch without emitting anything, or write the
bundle, measure it and apply the feedback correction to the estimate. The float
literals 1.1, 0.7, 0.9 of the source are modelled as exact rationals. -/
def packIter (cfg : PackCfg) (s : PackSt) : PackSt :=
  let batch := (cfg.fichiers.drop s.idx).take s.pagesParPdf
  let images := batch.filter cfg.decodeOk
  if images.isEmpty then { s with idx := s.idx + s.pagesParPdf }
  else
    let taille := tailleMoOf cfg images
    let b : Bundle := ⟨pdfName cfg.outputBase s.pdfNum, taille, images.length, images⟩
    let newEst :=
      if taille > cfg.maxSizeMb * (11 / 10) then
        pyInt ((s.pagesParPdf : ℚ) * cfg.maxSizeMb / taille)
      else if taille < cfg.maxSizeMb * (7 / 10) then
        pyInt ((s.pagesParPdf : ℚ) * cfg.maxSizeMb / taille * (9 / 10))
      else s.pagesParPdf
    { pagesParPdf := newEst, pdfNum := s.pdfNum + 1, idx := s.idx + batch.length,
      pdfsCrees := s.pdfsCrees ++ [b] }

/-- The while loop of creer_pdf_split on explicit fuel: none models a run that
has not terminated within fuel iterations. -/
def packLoop (cfg : PackCfg) : Nat → PackSt → Option (List Bundle)
  | 0, _ => none
  | fuel + 1, s =>
    if s.idx < cfg.fichiers.length then packLoop cfg fuel (packIter cfg s)
    else some s.pdfsCrees

/-- creer_pdf_split from the source: seed the estimate with
int(max_size_mb * 1024 / 350), clamp it down to len(fichiers) when it is at
least that, then run the loop from index 0 with pdf_num 1. -/
def creer_pdf_split (cfg : PackCfg) (fuel : Nat) : Option (List Bundle) :=
  let seed := pyInt (cfg.maxSizeMb * 1024 / 350)
  let seed2 := if cfg.fichiers.length ≤ seed then cfg.fichiers.length else seed
  packLoop cfg fuel { pagesParPdf := seed2, pdfNum := 1, idx := 0, pdfsCrees := [] }

/-- The packer exhausts every fuel bound: its while loop never terminates on
this input. -/
def packDiverges (cfg : PackCfg) : Prop := ∀ fuel, creer_pdf_split cfg fuel = none

/-- The feedback correction exactly as the specification states it: above
ceiling*1.10 shrink to floor(estimate*ceiling/actualSize); below ceiling*0.70
grow to floor(estimate*ceiling/actualSize*0.90); otherwise keep the estimate. -/
def specFeedback (ceiling actual : ℚ) (est : Nat) : Nat :=
  if actual > ceiling * (11 / 10) then pyInt ((est : ℚ) * ceiling / actual)
  else if actual < ceiling * (7 / 10) then pyInt ((est : ℚ) * ceiling / actual * (9 / 10))
  else est


/-- The shape of group 5 of the folder regex: an underscore, a digit group, and
the ".jpg" extension. -/
def folderSuf (e : Str) : Str := '_' :: (e ++ (".jpg".data))

theorem digit_ne_slash (c : Char) (h : isDigitCh c = true) : c ≠ '/' := by
  intro he
  subst he
  exact absurd h (by decide)

theorem checkTail13_spec (tl : Str) (h : checkTail13 tl = true) :
    tl = (tl.take 4) ++ folderSuf ((tl.drop 5).take 4) ∧
    isDigits (tl.take 4) = true ∧ (tl.take 4).length = 4 ∧
    isDigits ((tl.drop 5).take 4) = true ∧ ((tl.drop 5).take 4).length = 4 := by
  simp only [checkTail13, Bool.and_eq_true, beq_iff_eq] at h
  obtain ⟨⟨⟨⟨hlen, hd4⟩, hus⟩, he4⟩, hjpg⟩ := h
  have hl4 : (tl.take 4).length = 4 := by rw [List.length_take]; omega
  have hl5 : ((tl.drop 5).take 4).length = 4 := by
    rw [List.length_take, List.length_drop]; omega
  have h45 : tl.drop 4 = '_' :: tl.drop 5 := by
    have hdd : (tl.drop 4).drop 1 = tl.drop 5 := by rw [List.drop_drop]
    conv_lhs => rw [← List.take_append_drop 1 (tl.drop 4)]
    rw [hus, hdd]
    rfl
  have h59 : tl.drop 5 = ((tl.drop 5).take 4) ++ (".jpg".data) := by
    have hdd : (tl.drop 5).drop 4 = tl.drop 9 := by rw [List.drop_drop]
    conv_lhs => rw [← List.take_append_drop 4 (tl.drop 5)]
    rw [hdd, hjpg]
  refine ⟨?_, hd4, hl4, he4, hl5⟩
  conv_lhs => rw [← List.take_append_drop 4 tl, h45, h59]
  rfl

theorem checkTail13_build (d e : Str) (hd : isDigits d = true) (hdl : d.length = 4)
    (he : isDigits e = true) (hel : e.length = 4) :
    checkTail13 (d ++ folderSuf e) = true := by
  have hlen : (d ++ folderSuf e).length = 13 := by
    simp [folderSuf, hdl, hel]
  have htake : (d ++ folderSuf e).take 4 = d := by
    rw [← hdl]; exact List.take_left d (folderSuf e)
  have hdrop4 : (d ++ folderSuf e).drop 4 = folderSuf e := by
    rw [← hdl]; exact List.drop_left d (folderSuf e)
  have hdrop5 : (d ++ folderSuf e).drop 5 = e ++ (".jpg".data) := by
    have h5 : (5 : Nat) = 4 + 1 := rfl
    rw [h5, ← List.drop_drop, hdrop4]
    rfl
  have hdrop9 : (d ++ folderSuf e).drop 9 = (".jpg".data) := by
    have h9 : (9 : Nat) = 5 + 4 := rfl
    rw [h9, ← List.drop_drop, hdrop5, ← hel]
    exact List.drop_left e (".jpg".data)
  have htake1 : ((d ++ folderSuf e).drop 4).take 1 = ['_'] := by
    rw [hdrop4]; rfl
  have htake54 : ((d ++ folderSuf e).drop 5).take 4 = e := by
    rw [hdrop5, ← hel]; exact List.take_left e (".jpg".data)
  simp only [checkTail13, hlen, htake, hdrop9, htake1, htake54]
  simp [hd, he]

theorem checkAfterSlash_spec (rest2 mid g4 g5 : Str)
    (h : checkAfterSlash rest2 = some (mid, g4, g5)) :
    rest2 = mid ++ (g4 ++ g5) ∧ mid ≠ [] ∧ (∀ c ∈ mid, c ≠ '/') ∧
    isDigits g4 = true ∧ g4.length = 4 ∧
    ∃ e, g5 = folderSuf e ∧ isDigits e = true ∧ e.length = 4 := by
  simp only [checkAfterSlash] at h
  by_cases hlen : 14 ≤ rest2.length
  · rw [if_pos hlen] at h
    by_cases hcond : ((rest2.take (rest2.length - 13)).all (fun c => c != '/') &&
        checkTail13 (rest2.drop (rest2.length - 13))) = true
    · rw [if_pos hcond] at h
      injection h with h1
      have hmid : mid = rest2.take (rest2.length - 13) := (congrArg Prod.fst h1).symm
      have hg4 : g4 = (rest2.drop (rest2.length - 13)).take 4 :=
        (congrArg (fun x => x.2.1) h1).symm
      have hg5 : g5 = (rest2.drop (rest2.length - 13)).drop 4 :=
        (congrArg (fun x => x.2.2) h1).symm
      rw [Bool.and_eq_true] at hcond
      obtain ⟨hall, htl⟩ := hcond
      obtain ⟨htldecomp, htl4d, htl4l, htl5d, htl5l⟩ :=
        checkTail13_spec (rest2.drop (rest2.length - 13)) htl
      have hmidlen : mid.length = rest2.length - 13 := by
        rw [hmid, List.length_take]
        omega
      refine ⟨?_, ?_, ?_, ?_, ?_, ?_⟩
      · conv_lhs => rw [← List.take_append_drop (rest2.length - 13) rest2]
        rw [← hmid]
        congr 1
        conv_lhs => rw [← List.take_append_drop 4 (rest2.drop (rest2.length - 13))]
        rw [← hg4, ← hg5]
      · intro hm
        rw [hm] at hmidlen
        simp at hmidlen
        omega
      · intro c hc
        rw [hmid] at hc
        have := List.all_eq_true.mp hall c hc
        simpa using this
      · rw [hg4]; exact htl4d
      · rw [hg4]; exact htl4l
      · refine ⟨((rest2.drop (rest2.length - 13)).drop 5).take 4, ?_, htl5d, htl5l⟩
        rw [hg5]
        conv_lhs => rw [htldecomp]
        have hdl := List.drop_left ((rest2.drop (rest2.length - 13)).take 4)
          (folderSuf (((rest2.drop (rest2.length - 13)).drop 5).take 4))
        rw [htl4l] at hdl
        exact hdl
    · rw [if_neg hcond] at h
      exact absurd h (by simp)
  · rw [if_neg hlen] at h
    exact absurd h (by simp)

theorem checkAfterSlash_build (mid d e : Str) (hmne : mid ≠ [])
    (hms : ∀ c ∈ mid, c ≠ '/') (hd : isDigits d = true) (hdl : d.length = 4)
    (he : isDigits e = true) (hel : e.length = 4) :
    checkAfterSlash (mid ++ (d ++ folderSuf e)) = some (mid, d, folderSuf e) := by
  have htail13 : (d ++ folderSuf e).length = 13 := by simp [folderSuf, hdl, hel]
  have hmne1 : 1 ≤ mid.length := by
    cases mid with
    | nil => exact absurd rfl hmne
    | cons c cs => simp
  have hlen : (mid ++ (d ++ folderSuf e)).length = mid.length + 13 := by
    rw [List.length_append, htail13]
  have hsub : (mid ++ (d ++ folderSuf e)).length - 13 = mid.length := by omega
  have htake : (mid ++ (d ++ folderSuf e)).take mid.length = mid :=
    List.take_left mid (d ++ folderSuf e)
  have hdrop : (mid ++ (d ++ folderSuf e)).drop mid.length = d ++ folderSuf e :=
    List.drop_left mid (d ++ folderSuf e)
  have ht4 : (d ++ folderSuf e).take 4 = d := by
    rw [← hdl]; exact List.take_left d (folderSuf e)
  have hd4 : (d ++ folderSuf e).drop 4 = folderSuf e := by
    rw [← hdl]; exact List.drop_left d (folderSuf e)
  have hcond : ((mid.all fun c => c != '/') && checkTail13 (d ++ folderSuf e)) = true := by
    rw [Bool.and_eq_true]
    refine ⟨?_, checkTail13_build d e hd hdl he hel⟩
    rw [List.all_eq_true]
    intro c hc
    simpa using hms c hc
  simp only [checkAfterSlash, hsub, htake, hdrop, ht4, hd4, hlen, hcond]
  rw [if_pos (by omega : (14 : Nat) ≤ mid.length + 13)]
  simp
  exact ⟨⟨hms, checkTail13_build d e hd hdl he hel⟩, ht4, hd4⟩

theorem tryFolderHere_spec (rest g2 mid g4 g5 : Str)
    (h : tryFolderHere rest = some (g2, mid, g4, g5)) :
    rest = g2 ++ ('/' :: (mid ++ (g4 ++ g5))) ∧ isDigits g2 = true ∧ g2.length = 4 ∧
    mid ≠ [] ∧ (∀ c ∈ mid, c ≠ '/') ∧ isDigits g4 = true ∧ g4.length = 4 ∧
    ∃ e, g5 = folderSuf e ∧ isDigits e = true ∧ e.length = 4 := by
  match rest, h with
  | d1 :: d2 :: d3 :: d4 :: c :: rest2, h => ?_
  simp only [tryFolderHere] at h
  by_cases hb : (isDigitCh d1 && isDigitCh d2 && isDigitCh d3 && isDigitCh d4 && c == '/') = true
  · rw [if_pos hb] at h
    simp only [Bool.and_eq_true, beq_iff_eq] at hb
    obtain ⟨⟨⟨⟨h1, h2⟩, h3⟩, h4⟩, hc⟩ := hb
    subst hc
    cases hca : checkAfterSlash rest2 with
    | none => rw [hca] at h; exact absurd h (by simp)
    | some r =>
      obtain ⟨m2, g42, g52⟩ := r
      rw [hca] at h
      injection h with h5
      have hg2 : g2 = [d1, d2, d3, d4] := (congrArg Prod.fst h5).symm
      have hm : mid = m2 := (congrArg (fun x => x.2.1) h5).symm
      have hg4 : g4 = g42 := (congrArg (fun x => x.2.2.1) h5).symm
      have hg5 : g5 = g52 := (congrArg (fun x => x.2.2.2) h5).symm
      subst hg2 hm hg4 hg5
      obtain ⟨hdec, hmne, hms, hg4d, hg4l, he⟩ := checkAfterSlash_spec rest2 mid g4 g5 hca
      refine ⟨?_, ?_, rfl, hmne, hms, hg4d, hg4l, he⟩
      · rw [hdec]
        rfl
      · simp [isDigits, h1, h2, h3, h4]
  · rw [if_neg hb] at h
    exact absurd h (by simp)

theorem tryFolderHere_build (g2 mid g4 g5 : Str) (hg2d : isDigits g2 = true)
    (hg2l : g2.length = 4) (hca : checkAfterSlash (mid ++ (g4 ++ g5)) = some (mid, g4, g5)) :
    tryFolderHere (g2 ++ ('/' :: (mid ++ (g4 ++ g5)))) = some (g2, mid, g4, g5) := by
  match g2, hg2l with
  | [d1, d2, d3, d4], _ => ?_
  simp only [isDigits, List.all_cons, List.all_nil, Bool.and_true, Bool.and_eq_true] at hg2d
  obtain ⟨h1, ⟨h2, ⟨h3, h4⟩⟩⟩ := hg2d
  show tryFolderHere (d1 :: d2 :: d3 :: d4 :: '/' :: (mid ++ (g4 ++ g5))) = _
  simp only [tryFolderHere, h1, h2, h3, h4, Bool.and_self, beq_self_eq_true, if_true, hca]

theorem folderScan_sound (rest : Str) : ∀ acc pat, folderScan acc rest = some pat →
    ∃ sk g2 mid g4 g5, rest = sk ++ (g2 ++ ('/' :: (mid ++ (g4 ++ g5)))) ∧
      (∀ c ∈ sk, c ≠ '\n') ∧
      tryFolderHere (g2 ++ ('/' :: (mid ++ (g4 ++ g5)))) = some (g2, mid, g4, g5) ∧
      pat = Pattern.dossier (acc ++ sk) mid g5 4 := by
  induction rest with
  | nil =>
    intro acc pat h
    rw [folderScan] at h
    exact absurd h (by simp [tryFolderHere])
  | cons c cs ih =>
    intro acc pat h
    rw [folderScan] at h
    cases htry : tryFolderHere (c :: cs) with
    | some r =>
      obtain ⟨g2, mid, g4, g5⟩ := r
      rw [htry] at h
      injection h with h1
      obtain ⟨hdec, -, -, -, -, -, -, -⟩ := tryFolderHere_spec (c :: cs) g2 mid g4 g5 htry
      refine ⟨[], g2, mid, g4, g5, by simpa using hdec, by simp, ?_, ?_⟩
      · rw [← hdec]; exact htry
      · simp [← h1]
    | none =>
      rw [htry] at h
      by_cases hnl : (c == '\n') = true
      · rw [if_pos hnl] at h
        exact absurd h (by simp)
      · rw [if_neg hnl] at h
        obtain ⟨sk, g2, mid, g4, g5, hdec, hsknl, htry2, hpat⟩ := ih (acc ++ [c]) pat h
        refine ⟨c :: sk, g2, mid, g4, g5, by rw [List.cons_append, ← hdec], ?_, htry2, ?_⟩
        · intro x hx
          rcases List.mem_cons.mp hx with hx | hx
          · subst hx
            simpa using hnl
          · exact hsknl x hx
        · rw [hpat, List.append_assoc]
          rfl

theorem folderScan_complete (sk : Str) : ∀ acc rest1 r, (∀ c ∈ sk, c ≠ '\n') →
    tryFolderHere rest1 = some r → ∃ pat, folderScan acc (sk ++ rest1) = some pat := by
  induction sk with
  | nil =>
    intro acc rest1 r _ htry
    obtain ⟨g2, mid, g4, g5⟩ := r
    cases rest1 with
    | nil => simp [tryFolderHere] at htry
    | cons c cs =>
      refine ⟨Pattern.dossier acc mid g5 4, ?_⟩
      rw [List.nil_append, folderScan]
      simp only [htry]
  | cons c cs ih =>
    intro acc rest1 r hnl htry
    rw [List.cons_append, folderScan]
    cases htry2 : tryFolderHere (c :: (cs ++ rest1)) with
    | some r2 =>
      obtain ⟨g2, mid, g4, g5⟩ := r2
      simp only [htry2]
      exact ⟨Pattern.dossier acc mid g5 4, rfl⟩
    | none =>
      simp only [htry2]
      have hcnl : (c == '\n') = false := by
        have := hnl c (List.mem_cons_self c cs)
        simpa using this
      rw [hcnl]
      simp only [Bool.false_eq_true, if_false]
      exact ih (acc ++ [c]) rest1 r (fun x hx => hnl x (List.mem_cons_of_mem c hx)) htry

theorem slash_decomp_unique (B1 B2 : Str) (h1 : ∀ c ∈ B1, c ≠ '/') (h2 : ∀ c ∈ B2, c ≠ '/') :
    ∀ A1 A2 : Str, A1 ++ ('/' :: B1) = A2 ++ ('/' :: B2) → A1 = A2 ∧ B1 = B2 := by
  intro A1
  induction A1 with
  | nil =>
    intro A2 h
    cases A2 with
    | nil =>
      rw [List.nil_append, List.nil_append] at h
      injection h with _ hb
      exact ⟨rfl, hb⟩
    | cons a A2 =>
      rw [List.nil_append, List.cons_append] at h
      injection h with ha hb
      exact absurd rfl (h1 '/' (by
        rw [hb]
        exact List.mem_append_right A2 (List.mem_cons_self '/' B2)))
  | cons a A1 ih =>
    intro A2 h
    cases A2 with
    | nil =>
      rw [List.cons_append, List.nil_append] at h
      injection h with ha hb
      exact absurd rfl (h2 '/' (by
        rw [← hb]
        exact List.mem_append_right A1 (List.mem_cons_self '/' B1)))
    | cons b A2 =>
      rw [List.cons_append, List.cons_append] at h
      injection h with ha hb
      obtain ⟨e1, e2⟩ := ih A2 hb
      exact ⟨by rw [ha, e1], e2⟩

theorem isDigits_mem (s : Str) (h : isDigits s = true) (c : Char) (hc : c ∈ s) :
    isDigitCh c = true := List.all_eq_true.mp h c hc

theorem folderSuf_no_slash (e : Str) (he : isDigits e = true) :
    ∀ c ∈ folderSuf e, c ≠ '/' := by
  intro c hc
  rcases List.mem_cons.mp hc with hc | hc
  · subst hc; decide
  rcases List.mem_append.mp hc with hc | hc
  · exact digit_ne_slash c (isDigits_mem e he c hc)
  · have hj : (".jpg".data) = ['.', 'j', 'p', 'g'] := rfl
    rw [hj] at hc
    simp only [List.mem_cons, List.mem_singleton] at hc
    rcases hc with rfl | rfl | rfl | rfl | hc
    · decide
    · decide
    · decide
    · decide
    · simp at hc

theorem folder_match_exact (pre mid d e : Str)
    (hpre : ∀ c ∈ pre, c ≠ '\n')
    (hd : isDigits d = true) (hdl : d.length = 4)
    (hmne : mid ≠ []) (hms : ∀ c ∈ mid, c ≠ '/')
    (he : isDigits e = true) (hel : e.length = 4) :
    folderScan [] (pre ++ (d ++ ('/' :: (mid ++ (d ++ folderSuf e)))))
      = some (Pattern.dossier pre mid (folderSuf e) 4) := by
  have hca := checkAfterSlash_build mid d e hmne hms hd hdl he hel
  have htry := tryFolderHere_build d mid d (folderSuf e) hd hdl hca
  obtain ⟨pat, hpat⟩ :=
    folderScan_complete pre [] (d ++ ('/' :: (mid ++ (d ++ folderSuf e))))
      (d, mid, d, folderSuf e) hpre htry
  obtain ⟨sk, g2, mid2, g4, g5, hdec, hsknl, htry2, hpatEq⟩ := folderScan_sound _ _ _ hpat
  obtain ⟨-, hg2d, hg2l, hm2ne, hm2s, hg4d, hg4l, e2, hg5e, he2d, he2l⟩ :=
    tryFolderHere_spec _ _ _ _ _ htry2
  have hB1 : ∀ c ∈ mid2 ++ (g4 ++ g5), c ≠ '/' := by
    intro c hc
    rcases List.mem_append.mp hc with hc | hc
    · exact hm2s c hc
    rcases List.mem_append.mp hc with hc | hc
    · exact digit_ne_slash c (isDigits_mem g4 hg4d c hc)
    · rw [hg5e] at hc
      exact folderSuf_no_slash e2 he2d c hc
  have hB2 : ∀ c ∈ mid ++ (d ++ folderSuf e), c ≠ '/' := by
    intro c hc
    rcases List.mem_append.mp hc with hc | hc
    · exact hms c hc
    rcases List.mem_append.mp hc with hc | hc
    · exact digit_ne_slash c (isDigits_mem d hd c hc)
    · exact folderSuf_no_slash e he c hc
  have heq : (sk ++ g2) ++ ('/' :: (mid2 ++ (g4 ++ g5))) =
      (pre ++ d) ++ ('/' :: (mid ++ (d ++ folderSuf e))) := by
    rw [List.append_assoc, List.append_assoc]
    exact hdec.symm
  obtain ⟨hA, hB⟩ := slash_decomp_unique _ _ hB1 hB2 _ _ heq
  obtain ⟨hsk, hg2⟩ := List.append_inj' hA (by rw [hg2l, hdl])
  have hg45len : (g4 ++ g5).length = (d ++ folderSuf e).length := by
    rw [List.length_append, List.length_append, hg4l, hdl, hg5e]
    simp [folderSuf, he2l, hel]
  obtain ⟨hmid2, h45⟩ := List.append_inj' hB hg45len
  obtain ⟨hg4e, hg5e2⟩ := List.append_inj h45 (by rw [hg4l, hdl])
  rw [hpat, hpatEq, hsk, hmid2, hg5e2]
  simp

theorem getLast_append_jpg (xs : Str) : (xs ++ (".jpg".data)).getLast? = some 'g' := by
  rw [List.getLast?_append]
  rfl

theorem folder_url_strip (pre d mid e : Str) :
    stripFinalNewline (pre ++ (d ++ ('/' :: (mid ++ (d ++ folderSuf e))))) =
      pre ++ (d ++ ('/' :: (mid ++ (d ++ folderSuf e)))) := by
  have h1 : pre ++ (d ++ ('/' :: (mid ++ (d ++ folderSuf e)))) =
      (pre ++ (d ++ ('/' :: (mid ++ (d ++ ('_' :: e)))))) ++ (".jpg".data) := by
    simp [folderSuf, List.append_assoc]
  have hlast : (pre ++ (d ++ ('/' :: (mid ++ (d ++ folderSuf e))))).getLast? = some 'g' := by
    rw [h1]
    exact getLast_append_jpg _
  simp only [stripFinalNewline, hlast]
  simp

/-- C2: for every sample URL of the folder shape — a prefix (free of newlines,
which the regex dot cannot cross), a 4-digit group, a slash, a nonempty
slash-free middle, the same 4-digit group again, and the group-5 suffix
(underscore, 4 digits, ".jpg") — analyser_url detects the folder pattern with
exactly these groups, and generer_url applied to that pattern at the sample's
own page number (the value of the 4-digit group) reproduces the URL exactly. -/
theorem folder_roundtrip_renders_sample (pre mid d e : Str)
    (hpre : ∀ c ∈ pre, c ≠ '\n')
    (hd : isDigits d = true) (hdl : d.length = 4)
    (hmne : mid ≠ []) (hms : ∀ c ∈ mid, c ≠ '/')
    (he : isDigits e = true) (hel : e.length = 4) :
    analyser_url (pre ++ (d ++ ('/' :: (mid ++ (d ++ folderSuf e)))))
      = some (Pattern.dossier pre mid (folderSuf e) 4) ∧
    generer_url (Pattern.dossier pre mid (folderSuf e) 4) (decodeD d)
      = pre ++ (d ++ ('/' :: (mid ++ (d ++ folderSuf e)))) := by
  constructor
  · simp only [analyser_url, folder_url_strip,
      folder_match_exact pre mid d e hpre hd hdl hmne hms he hel]
  · simp only [generer_url]
    have hz : zpad 4 (decodeD d) = d := by
      rw [← hdl]
      exact zpad_decodeD d hd (by
        intro h0
        rw [h0] at hdl
        simp at hdl)
    rw [hz]
    simp [List.append_assoc]

theorem folder_roundtrip_renders_sample_witness :
    analyser_url (("http://a/".data) ++ (("0010".data) ++
        ('/' :: (("f".data) ++ (("0010".data) ++ folderSuf ("0001".data))))))
      = some (Pattern.dossier ("http://a/".data) ("f".data) (folderSuf ("0001".data)) 4) ∧
    generer_url (Pattern.dossier ("http://a/".data) ("f".data) (folderSuf ("0001".data)) 4)
        (decodeD ("0010".data))
      = ("http://a/".data) ++ (("0010".data) ++
          ('/' :: (("f".data) ++ (("0010".data) ++ folderSuf ("0001".data))))) :=
  folder_roundtrip_renders_sample ("http://a/".data) ("f".data) ("0010".data) ("0001".data)
    (by decide) (by decide) (by decide) (by decide) (by decide) (by decide) (by decide)

/-- C5 (amended): analyser_url returns the folder variant with digit width 4
on every decoded URL of the folder shape — a folder segment of the four digits
d, immediately a slash, then a slash-free segment ending in the same four
digits and the group-5 file suffix (underscore, four digits, ".jpg"; a bare
".jpg" suffix is not enough and falls to the Simple rule) — and the returned
pattern renders the page number into both occurrences as one and the same
digit string: same width, same numeric value. -/
theorem analyser_url_folder_detected (pre mid d e : Str)
    (hpre : ∀ c ∈ pre, c ≠ '\n')
    (hd : isDigits d = true) (hdl : d.length = 4)
    (hmne : mid ≠ []) (hms : ∀ c ∈ mid, c ≠ '/')
    (he : isDigits e = true) (hel : e.length = 4) :
    analyser_url (pre ++ (d ++ ('/' :: (mid ++ (d ++ folderSuf e)))))
      = some (Pattern.dossier pre mid (folderSuf e) 4) ∧
    ∀ n : Nat, ∃ w : Str, isDigits w = true ∧ 4 ≤ w.length ∧ decodeD w = n ∧
      generer_url (Pattern.dossier pre mid (folderSuf e) 4) n =
        pre ++ (w ++ ('/' :: (mid ++ (w ++ folderSuf e)))) := by
  constructor
  · simp only [analyser_url, folder_url_strip,
      folder_match_exact pre mid d e hpre hd hdl hmne hms he hel]
  · intro n
    refine ⟨zpad 4 n, zpad_digits 4 n, zpad_length_ge 4 n, decodeD_zpad 4 n, ?_⟩
    simp [generer_url, List.append_assoc]

theorem analyser_url_folder_detected_witness :
    analyser_url (("x/".data) ++ (("3217".data) ++
        ('/' :: (("img".data) ++ (("3217".data) ++ folderSuf ("0002".data))))))
      = some (Pattern.dossier ("x/".data) ("img".data) (folderSuf ("0002".data)) 4) ∧
    ∀ n : Nat, ∃ w : Str, isDigits w = true ∧ 4 ≤ w.length ∧ decodeD w = n ∧
      generer_url (Pattern.dossier ("x/".data) ("img".data) (folderSuf ("0002".data)) 4) n =
        ("x/".data) ++ (w ++ ('/' :: (("img".data) ++ (w ++ folderSuf ("0002".data))))) :=
  analyser_url_folder_detected ("x/".data) ("img".data) ("3217".data) ("0002".data)
    (by decide) (by decide) (by decide) (by decide) (by decide) (by decide) (by decide)

/-- C5 counterexample: "a/0008/f0008.jpg" has a 4-digit folder segment, a
separator, and a segment ending in the same 4-digit number followed by the
file suffix ".jpg" — yet analyser_url does not return the Folder variant: the
folder regex demands the trailing sub-page group (underscore, four digits,
".jpg"), so this URL falls through to the Simple rule. -/
theorem folder_shape_bare_jpg_goes_simple :
    analyser_url ("a/0008/f0008.jpg".data)
      = some (Pattern.simple ("a/0008/f".data) (".jpg".data) 4) := by decide

theorem jpgSufCI_shape (s : Str) (h : jpgSufCI s = true) :
    ∃ c1 c2 c3 c4, s = [c1, c2, c3, c4] ∧ c1 = '.' ∧ (c4 = 'g' ∨ c4 = 'G') := by
  match s, h with
  | [c1, c2, c3, c4], h => ?_
  simp only [jpgSufCI, Bool.and_eq_true, Bool.or_eq_true, beq_iff_eq] at h
  exact ⟨c1, c2, c3, c4, rfl, h.1.1.1, h.2⟩

/-- C6 (amended): when the folder regex does not match, analyser_url returns the
simple variant on every decoded URL whose path ends in four digits immediately
followed by ".jpg" case-insensitively — capturing the last four digits, so the
recorded digit width is always 4 (a sample with fewer digits before the suffix
is not recognized); and whenever neither rule matches, the result none makes
main abort before a single fetch task — and so before any network activity —
is built. -/
theorem analyser_url_simple_fallback (g1 d s3 : Str)
    (hnl : ∀ c ∈ g1, c ≠ '\n') (hd : isDigits d = true) (hdl : d.length = 4)
    (hs3 : jpgSufCI s3 = true)
    (hfolder : folderScan [] (g1 ++ (d ++ s3)) = none) :
    analyser_url (g1 ++ (d ++ s3)) = some (Pattern.simple g1 s3 4) ∧
    ∀ (u : Str) (a b : Nat), analyser_url u = none → mainTasks u a b = [] := by
  obtain ⟨c1, c2, c3, c4, hs, hc1, hc4⟩ := jpgSufCI_shape s3 hs3
  have hs3l : s3.length = 4 := by rw [hs]; rfl
  constructor
  · have hstrip : stripFinalNewline (g1 ++ (d ++ s3)) = g1 ++ (d ++ s3) := by
      have hlast : (g1 ++ (d ++ s3)).getLast? = some c4 := by
        rw [List.getLast?_append, List.getLast?_append, hs]
        rfl
      simp only [stripFinalNewline, hlast]
      have : (some c4 == some '\n') = false := by
        rcases hc4 with rfl | rfl <;> rfl
      rw [this]
      simp
    have hlen : (g1 ++ (d ++ s3)).length = g1.length + 8 := by
      simp [hdl, hs3l]
    have ht1 : (g1 ++ (d ++ s3)).take g1.length = g1 := List.take_left g1 (d ++ s3)
    have hd1 : (g1 ++ (d ++ s3)).drop g1.length = d ++ s3 := List.drop_left g1 (d ++ s3)
    have hd2 : (g1 ++ (d ++ s3)).drop (g1.length + 4) = s3 := by
      rw [← List.drop_drop, hd1, ← hdl]
      exact List.drop_left d s3
    have ht2 : ((g1 ++ (d ++ s3)).drop g1.length).take 4 = d := by
      rw [hd1, ← hdl]
      exact List.take_left d s3
    have hsm : simpleMatch (g1 ++ (d ++ s3)) = some (g1, d, s3) := by
      simp only [simpleMatch, hlen]
      rw [if_pos (by omega)]
      have hsub8 : g1.length + 8 - 8 = g1.length := by omega
      have hsub4 : g1.length + 8 - 4 = g1.length + 4 := by omega
      rw [hsub8, hsub4, ht1, ht2, hd2]
      rw [if_pos]
      rw [Bool.and_eq_true, Bool.and_eq_true]
      refine ⟨⟨?_, hd⟩, hs3⟩
      rw [List.all_eq_true]
      intro c hc
      simpa using hnl c hc
    simp only [analyser_url, hstrip, hfolder, hsm, hdl]
  · intro u a b hnone
    simp [mainTasks, hnone]

theorem analyser_url_simple_fallback_witness :
    analyser_url (("page".data) ++ (("0007".data) ++ (".jpg".data)))
      = some (Pattern.simple ("page".data) (".jpg".data) 4) ∧
    ∀ (u : Str) (a b : Nat), analyser_url u = none → mainTasks u a b = [] :=
  analyser_url_simple_fallback ("page".data) ("0007".data) (".jpg".data)
    (by decide) (by decide) (by decide) (by decide) (by decide)

/-- C6 counterexample: "page007.jpg" ends in one or more digits immediately
followed by ".jpg", yet analyser_url recognizes nothing — the fallback regex
demands exactly four digits, so the claimed simple match with digit width 3
does not happen. -/
theorem analyser_url_three_digits_unrecognized :
    analyser_url ("page007.jpg".data) = none := by decide

/-- C9: for a fixed pattern, generer_url is injective in the page number —
distinct pages always render to distinct URLs (the zero-padded decimal of the
page can be decoded back, and lengths separate pads of different widths). -/
theorem generer_url_injective (pat : Pattern) (n1 n2 : Nat) (h : n1 ≠ n2) :
    generer_url pat n1 ≠ generer_url pat n2 := by
  intro heq
  apply h
  cases pat with
  | simple pre suf digits =>
    simp only [generer_url, List.append_assoc] at heq
    have h2 := List.append_cancel_left heq
    have hlen : (zpad digits n1).length = (zpad digits n2).length := by
      have hl := congrArg List.length h2
      simp only [List.length_append] at hl
      omega
    have hz := (List.append_inj h2 hlen).1
    have e1 := decodeD_zpad digits n1
    have e2 := decodeD_zpad digits n2
    rw [← e1, ← e2, hz]
  | dossier pre mid suf digits =>
    simp only [generer_url, List.append_assoc] at heq
    have h2 := List.append_cancel_left heq
    have hlen : (zpad 4 n1).length = (zpad 4 n2).length := by
      have hl := congrArg List.length h2
      simp only [List.length_append, List.length_cons] at hl
      omega
    have hz := (List.append_inj h2 hlen).1
    have e1 := decodeD_zpad 4 n1
    have e2 := decodeD_zpad 4 n2
    rw [← e1, ← e2, hz]

theorem generer_url_injective_witness :
    (1 : Nat) ≠ 2 ∧
    generer_url (Pattern.simple ("p".data) (".jpg".data) 4) 1 ≠
      generer_url (Pattern.simple ("p".data) (".jpg".data) 4) 2 :=
  ⟨by decide, generer_url_injective (Pattern.simple ("p".data) (".jpg".data) 4) 1 2 (by decide)⟩

/-- C10: when the request completes without an exception but is classified a
failure (status not 200, or payload not above the 10000-byte threshold), the
recorded reason is exactly "size=" followed by the payload byte count — it
depends only on the byte count, never on the status code; only the exception
path produces a different reason, namely the exception's own text. -/
theorem telecharger_page_failure_reason (dir : Str) (page : Nat) (r : Response)
    (h : ¬(r.status = 200 ∧ 10000 < r.contentLen)) :
    telecharger_page (Except.ok r) dir page = (page, none, some (sizeMsg r.contentLen)) ∧
    (∀ r2 : Response, ¬(r2.status = 200 ∧ 10000 < r2.contentLen) →
      r2.contentLen = r.contentLen →
      (telecharger_page (Except.ok r2) dir page).2.2 =
        (telecharger_page (Except.ok r) dir page).2.2) ∧
    (∀ e : Str, telecharger_page (Except.error e) dir page = (page, none, some e)) := by
  refine ⟨?_, ?_, fun e => rfl⟩
  · simp [telecharger_page, h]
  · intro r2 h2 hlen
    rw [hlen] at h2
    simp [telecharger_page, h, h2, hlen]

theorem telecharger_page_failure_reason_witness :
    ¬((404 : Nat) = 200 ∧ 10000 < (17 : Nat)) ∧
    telecharger_page (Except.ok ⟨404, 17⟩) ("d".data) 9 =
      (9, none, some (sizeMsg 17)) :=
  ⟨by decide, (telecharger_page_failure_reason ("d".data) 9 ⟨404, 17⟩ (by decide)).1⟩

theorem packIter_zero_estimate (cfg : PackCfg) (s : PackSt) (hz : s.pagesParPdf = 0) :
    packIter cfg s = s := by
  obtain ⟨p, n, i, b⟩ := s
  simp only at hz
  subst hz
  simp [packIter]

theorem packLoop_zero_estimate_none (cfg : PackCfg) (fuel : Nat) (s : PackSt)
    (hz : s.pagesParPdf = 0) (hidx : s.idx < cfg.fichiers.length) :
    packLoop cfg fuel s = none := by
  induction fuel with
  | zero => rfl
  | succ fuel ih =>
    rw [packLoop, if_pos hidx, packIter_zero_estimate cfg s hz]
    exact ih

/-- Input on which the packer's estimate is zero from the start: a 0.1 MB size
ceiling seeds pages_par_pdf = int(0.1 * 1024 / 350) = 0, and one file is
present. -/
def cfgZeroEstimate : PackCfg :=
  { fichiers := [("a".data)], maxSizeMb := 1 / 10, decodeOk := fun _ => true,
    pdfSizeBytes := fun _ => 0, outputBase := ("o".data) }

/-- C1: the code violates the claim — no clamping of the estimate to a minimum
of 1 exists anywhere in creer_pdf_split, so with a 0.1 MB ceiling and one input
file the seeded estimate is 0, every batch is empty, the cursor advances by 0
in every iteration, and the while loop never terminates (no fuel suffices). -/
theorem creer_pdf_split_zero_estimate_diverges : packDiverges cfgZeroEstimate := by
  intro fuel
  have hseed : pyInt (cfgZeroEstimate.maxSizeMb * 1024 / 350) = 0 := by
    show pyInt ((1 / 10 : ℚ) * 1024 / 350) = 0
    unfold pyInt
    norm_num
  simp only [creer_pdf_split, hseed]
  have h1 : cfgZeroEstimate.fichiers.length = 1 := rfl
  rw [h1, if_neg (by omega)]
  exact packLoop_zero_estimate_none cfgZeroEstimate fuel _ rfl (by rw [h1]; decide)

/-- A bundle-writing loop iteration in closed form: the new estimate is the
specification feedback formula applied to the measured size, and the appended
bundle is computed from the pre-correction state. -/
theorem packIter_write_step (cfg : PackCfg) (s : PackSt) (images : List Str)
    (himg : images = ((cfg.fichiers.drop s.idx).take s.pagesParPdf).filter cfg.decodeOk)
    (hne : images ≠ []) :
    packIter cfg s =
      { pagesParPdf := specFeedback cfg.maxSizeMb (tailleMoOf cfg images) s.pagesParPdf,
        pdfNum := s.pdfNum + 1,
        idx := s.idx + ((cfg.fichiers.drop s.idx).take s.pagesParPdf).length,
        pdfsCrees := s.pdfsCrees ++
          [⟨pdfName cfg.outputBase s.pdfNum, tailleMoOf cfg images, images.length,
            images⟩] } := by
  subst himg
  have hemp : (((cfg.fichiers.drop s.idx).take s.pagesParPdf).filter cfg.decodeOk).isEmpty
      = false := by
    cases h : (((cfg.fichiers.drop s.idx).take s.pagesParPdf).filter cfg.decodeOk).isEmpty
    · rfl
    · exact absurd (List.isEmpty_iff.mp h) hne
  simp only [packIter, specFeedback, hemp]
  simp

/-- C3: every loop iteration that writes a bundle measures it and then updates
the estimate exactly by the specification's feedback formula — above
ceiling*1.10 the estimate becomes floor(estimate*ceiling/actualSize), below
ceiling*0.70 it becomes floor(estimate*ceiling/actualSize*0.90), otherwise it
is unchanged — and the correction affects subsequent bundles only: the bundle
appended in this very iteration (name, measured size, page count, content) is
computed entirely from the state before the correction, and the previously
written bundles are untouched. -/
theorem packIter_feedback_matches_spec (cfg : PackCfg) (s : PackSt) (images : List Str)
    (himg : images = ((cfg.fichiers.drop s.idx).take s.pagesParPdf).filter cfg.decodeOk)
    (hne : images ≠ []) :
    packIter cfg s =
      { pagesParPdf := specFeedback cfg.maxSizeMb (tailleMoOf cfg images) s.pagesParPdf,
        pdfNum := s.pdfNum + 1,
        idx := s.idx + ((cfg.fichiers.drop s.idx).take s.pagesParPdf).length,
        pdfsCrees := s.pdfsCrees ++
          [⟨pdfName cfg.outputBase s.pdfNum, tailleMoOf cfg images, images.length,
            images⟩] } :=
  packIter_write_step cfg s images himg hne

/-- Concrete configuration for the feedback witness: one decodable file, a
350 MB ceiling and a 1 MB encoded bundle. -/
def cfgFeedbackW : PackCfg :=
  { fichiers := [("a".data)], maxSizeMb := 350, decodeOk := fun _ => true,
    pdfSizeBytes := fun _ => 1048576, outputBase := ("o".data) }

theorem packIter_feedback_matches_spec_witness :
    packIter cfgFeedbackW ⟨1, 1, 0, []⟩ =
      { pagesParPdf := specFeedback cfgFeedbackW.maxSizeMb
          (tailleMoOf cfgFeedbackW
            (((cfgFeedbackW.fichiers.drop 0).take 1).filter cfgFeedbackW.decodeOk)) 1,
        pdfNum := 1 + 1,
        idx := 0 + ((cfgFeedbackW.fichiers.drop 0).take 1).length,
        pdfsCrees := [] ++
          [⟨pdfName cfgFeedbackW.outputBase 1,
            tailleMoOf cfgFeedbackW
              (((cfgFeedbackW.fichiers.drop 0).take 1).filter cfgFeedbackW.decodeOk),
            (((cfgFeedbackW.fichiers.drop 0).take 1).filter cfgFeedbackW.decodeOk).length,
            ((cfgFeedbackW.fichiers.drop 0).take 1).filter cfgFeedbackW.decodeOk⟩] } :=
  packIter_feedback_matches_spec cfgFeedbackW ⟨1, 1, 0, []⟩ _ rfl (by decide)

/-- Input for the C8 counterexample: one decodable file whose encoded size
(1 MB) alone exceeds the 0.1 MB ceiling; the seeded estimate is
int(0.1 * 1024 / 350) = 0. -/
def cfgOversizedLowCeiling : PackCfg :=
  { fichiers := [("a".data)], maxSizeMb := 1 / 10, decodeOk := fun _ => true,
    pdfSizeBytes := fun _ => 1048576, outputBase := ("o".data) }

/-- C8 counterexample: a single input file whose encoded size alone exceeds the
size ceiling does NOT always produce one one-page bundle — with a 0.1 MB
ceiling the seeded estimate is 0 and the loop never terminates, so the packer
returns nothing at all (no fuel suffices). -/
theorem single_oversized_low_ceiling_no_bundle : packDiverges cfgOversizedLowCeiling := by
  intro fuel
  have hseed : pyInt (cfgOversizedLowCeiling.maxSizeMb * 1024 / 350) = 0 := by
    show pyInt ((1 / 10 : ℚ) * 1024 / 350) = 0
    unfold pyInt
    norm_num
  simp only [creer_pdf_split, hseed]
  have h1 : cfgOversizedLowCeiling.fichiers.length = 1 := rfl
  rw [h1, if_neg (by omega)]
  exact packLoop_zero_estimate_none cfgOversizedLowCeiling fuel _ rfl (by rw [h1]; decide)

/-- C8 (amended): provided the seeded estimate int(max_size_mb*1024/350) is at
least 1 (the source has no clamp guaranteeing this), a single decodable input
file whose encoded size alone exceeds the size ceiling is packed into exactly
one bundle containing exactly that one page — not zero bundles and not an
error. -/
theorem single_oversized_file_one_bundle (cfg : PackCfg) (f : Str) (fuel : Nat)
    (hf : cfg.fichiers = [f])
    (hseed : 1 ≤ pyInt (cfg.maxSizeMb * 1024 / 350))
    (hdec : cfg.decodeOk f = true)
    (_hbig : cfg.maxSizeMb * (1024 * 1024) < (cfg.pdfSizeBytes [f] : ℚ)) :
    creer_pdf_split cfg (fuel + 2) =
      some [⟨pdfName cfg.outputBase 1, tailleMoOf cfg [f], 1, [f]⟩] := by
  simp only [creer_pdf_split, hf]
  rw [show ([f] : List Str).length = 1 from rfl, if_pos hseed]
  rw [packLoop, if_pos (by rw [hf]; simp)]
  have himg : ([f] : List Str) = ((cfg.fichiers.drop 0).take 1).filter cfg.decodeOk := by
    rw [hf]
    simp [hdec]
  have hiter := packIter_write_step cfg ⟨1, 1, 0, []⟩ [f] himg (by simp)
  rw [hiter]
  rw [packLoop, if_neg (by rw [hf]; simp)]
  simp

/-- Concrete configuration for the C8 witness: a 1 MB ceiling (seeded estimate
int(1024/350) = 2) and a 2 MB encoded result. -/
def cfgOversizedW : PackCfg :=
  { fichiers := [("a".data)], maxSizeMb := 1, decodeOk := fun _ => true,
    pdfSizeBytes := fun _ => 2097152, outputBase := ("o".data) }

theorem single_oversized_file_one_bundle_witness :
    creer_pdf_split cfgOversizedW 2 =
      some [⟨pdfName cfgOversizedW.outputBase 1, tailleMoOf cfgOversizedW [("a".data)], 1,
        [("a".data)]⟩] :=
  single_oversized_file_one_bundle cfgOversizedW ("a".data) 0 rfl
    (by unfold pyInt; norm_num [cfgOversizedW]) rfl
    (by norm_num [cfgOversizedW])

theorem take_length_take {α : Type} (l : List α) (k : Nat) :
    l.take ((l.take k).length) = l.take k := by
  rw [List.length_take]
  rcases le_total k l.length with h | h
  · rw [Nat.min_def, if_pos h]
  · rw [Nat.min_def]
    by_cases hkl : k ≤ l.length
    · rw [if_pos hkl]
    · rw [if_neg hkl, List.take_length, List.take_of_length_le h]

theorem length_filter_add_length_filter_not {α : Type} (l : List α) (p : α → Bool) :
    (l.filter p).length + (l.filter (fun a => !p a)).length = l.length := by
  induction l with
  | nil => rfl
  | cons a l ih =>
    by_cases h : p a
    · simp only [List.filter_cons, h, if_pos, Bool.not_true, List.length_cons]
      simp [h]
      omega
    · simp only [List.filter_cons]
      simp [h]
      omega

theorem packIter_coverage (cfg : PackCfg) (s : PackSt)
    (h1 : (s.pdfsCrees.map Bundle.content).flatten =
      (cfg.fichiers.take s.idx).filter cfg.decodeOk)
    (h2 : ∀ b ∈ s.pdfsCrees, b.pages = b.content.length) :
    ((packIter cfg s).pdfsCrees.map Bundle.content).flatten =
      (cfg.fichiers.take (packIter cfg s).idx).filter cfg.decodeOk ∧
    ∀ b ∈ (packIter cfg s).pdfsCrees, b.pages = b.content.length := by
  by_cases hemp : (((cfg.fichiers.drop s.idx).take s.pagesParPdf).filter cfg.decodeOk).isEmpty
      = true
  · have hpi : packIter cfg s = { s with idx := s.idx + s.pagesParPdf } := by
      simp only [packIter, hemp]
      simp
    rw [hpi]
    refine ⟨?_, h2⟩
    rw [List.take_add, List.filter_append, List.isEmpty_iff.mp hemp, List.append_nil]
    exact h1
  · have hne : ((cfg.fichiers.drop s.idx).take s.pagesParPdf).filter cfg.decodeOk ≠ [] := by
      intro h0
      exact hemp (List.isEmpty_iff.mpr h0)
    have hpi := packIter_write_step cfg s _ rfl hne
    rw [hpi]
    constructor
    · simp only [List.map_append, List.flatten_append, List.map_cons, List.map_nil,
        List.flatten_cons, List.flatten_nil, List.append_nil]
      rw [h1, List.take_add, List.filter_append]
      congr 1
      rw [take_length_take]
    · intro b hb
      rcases List.mem_append.mp hb with hb | hb
      · exact h2 b hb
      · rw [List.mem_singleton] at hb
        subst hb
        rfl

theorem packLoop_coverage (cfg : PackCfg) :
    ∀ (fuel : Nat) (s : PackSt) (out : List Bundle),
      (s.pdfsCrees.map Bundle.content).flatten =
        (cfg.fichiers.take s.idx).filter cfg.decodeOk →
      (∀ b ∈ s.pdfsCrees, b.pages = b.content.length) →
      packLoop cfg fuel s = some out →
      (out.map Bundle.content).flatten = cfg.fichiers.filter cfg.decodeOk ∧
        ∀ b ∈ out, b.pages = b.content.length := by
  intro fuel
  induction fuel with
  | zero =>
    intro s out h1 h2 h3
    exact absurd h3 (by simp [packLoop])
  | succ fuel ih =>
    intro s out h1 h2 h3
    rw [packLoop] at h3
    by_cases hidx : s.idx < cfg.fichiers.length
    · rw [if_pos hidx] at h3
      obtain ⟨g1, g2⟩ := packIter_coverage cfg s h1 h2
      exact ih (packIter cfg s) out g1 g2 h3
    · rw [if_neg hidx] at h3
      injection h3 with h3
      subst h3
      refine ⟨?_, h2⟩
      rw [h1, List.take_of_length_le (le_of_not_lt hidx)]

/-- C7: whenever creer_pdf_split terminates, the concatenation of the written
bundles' page contents is exactly the decodable input files in their original
order — consecutive batches are disjoint slices of the ordered file list, so no
input file lands in more than one bundle — and the bundles' page counts sum to
the number of input files minus the number of per-page decode failures. -/
theorem creer_pdf_split_coverage (cfg : PackCfg) (fuel : Nat) (out : List Bundle)
    (h : creer_pdf_split cfg fuel = some out) :
    (out.map Bundle.content).flatten = cfg.fichiers.filter cfg.decodeOk ∧
    (out.map Bundle.pages).sum =
      cfg.fichiers.length - (cfg.fichiers.filter (fun f => !cfg.decodeOk f)).length := by
  simp only [creer_pdf_split] at h
  obtain ⟨hcov, hpg⟩ := packLoop_coverage cfg fuel _ out (by simp) (by simp) h
  refine ⟨hcov, ?_⟩
  have hmap : out.map Bundle.pages = out.map (fun b => b.content.length) :=
    List.map_congr_left hpg
  have hlen : ((out.map Bundle.content).flatten).length =
      (cfg.fichiers.filter cfg.decodeOk).length := by rw [hcov]
  rw [List.length_flatten, List.map_map] at hlen
  rw [show (List.length ∘ Bundle.content) = (fun b : Bundle => b.content.length) from rfl]
    at hlen
  have harith := length_filter_add_length_filter_not cfg.fichiers cfg.decodeOk
  rw [hmap]
  omega

/-- Concrete configuration for the coverage witness: two decodable files, a
350 MB ceiling and a 350 MB encoded bundle (inside the tolerance band). -/
def cfgCovW : PackCfg :=
  { fichiers := [("a".data), ("b".data)], maxSizeMb := 350, decodeOk := fun _ => true,
    pdfSizeBytes := fun _ => 367001600, outputBase := ("o".data) }

/-- The bundle list the coverage witness run produces. -/
def outCovW : List Bundle :=
  [⟨pdfName ("o".data) 1, tailleMoOf cfgCovW [("a".data), ("b".data)], 2,
    [("a".data), ("b".data)]⟩]

theorem creer_pdf_split_coverage_witness :
    (outCovW.map Bundle.content).flatten = cfgCovW.fichiers.filter cfgCovW.decodeOk ∧
    (outCovW.map Bundle.pages).sum =
      cfgCovW.fichiers.length -
        (cfgCovW.fichiers.filter (fun f => !cfgCovW.decodeOk f)).length :=
  creer_pdf_split_coverage cfgCovW 2 outCovW (by
    have hseed : pyInt (cfgCovW.maxSizeMb * 1024 / 350) = 1024 := by
      unfold pyInt
      norm_num [cfgCovW]
      decide
    simp only [creer_pdf_split, hseed]
    norm_num [cfgCovW, packLoop, packIter, outCovW, tailleMoOf, specFeedback, pyInt, pdfName])

theorem collectResults_go (backend : Nat → Except Str Response) (dir : Str) :
    ∀ (l : List Nat) (fs : List Str) (es : List (Nat × Option Str)),
      l.foldl
        (fun acc page =>
          match telecharger_page (backend page) dir page with
          | (_, some path, _) => (acc.1 ++ [path], acc.2)
          | (p, none, err) => (acc.1, acc.2 ++ [(p, err)]))
        (fs, es) =
      (fs ++ l.filterMap (fun p => (telecharger_page (backend p) dir p).2.1),
       es ++ l.filterMap (fun p =>
          match telecharger_page (backend p) dir p with
          | (_, some _, _) => none
          | (q, none, e) => some (q, e))) := by
  intro l
  induction l with
  | nil => intro fs es; simp
  | cons p l ih =>
    intro fs es
    rw [List.foldl_cons, List.filterMap_cons, List.filterMap_cons]
    rcases htp : telecharger_page (backend p) dir p with ⟨q, op, oe⟩
    cases op with
    | some path =>
      simp only [htp]
      rw [ih]
      simp [List.append_assoc]
    | none =>
      simp only [htp]
      rw [ih]
      simp [List.append_assoc]

theorem collectResults_eq (backend : Nat → Except Str Response) (dir : Str)
    (l : List Nat) :
    collectResults backend dir l =
      (l.filterMap (fun p => (telecharger_page (backend p) dir p).2.1),
       l.filterMap (fun p =>
          match telecharger_page (backend p) dir p with
          | (_, some _, _) => none
          | (q, none, e) => some (q, e))) := by
  rw [collectResults, collectResults_go]
  simp

theorem filterMap_eq_map_filter {α β : Type} (l : List α) (f : α → Option β) (g : α → Bool)
    (nm : α → β) (h : ∀ a ∈ l, f a = if g a then some (nm a) else none) :
    l.filterMap f = (l.filter g).map nm := by
  induction l with
  | nil => rfl
  | cons a l ih =>
    rw [List.filterMap_cons, List.filter_cons]
    have ha := h a (List.mem_cons_self a l)
    have hrest := ih (fun x hx => h x (List.mem_cons_of_mem a hx))
    by_cases hg : g a = true
    · simp only [ha, hg, if_true, List.map_cons, hrest]
    · simp only [ha, hg]
      simp only [Bool.false_eq_true, if_false] at *
      exact hrest

/-- The failing pages of the C4 test scenario. -/
def isFailPage (p : Nat) : Bool := p == 3 || p == 7

theorem range_filter_37 (N : Nat) (h7 : 7 ≤ N) :
    (List.range' 1 N).filter isFailPage = [3, 7] := by
  induction N with
  | zero => omega
  | succ N ih =>
    by_cases hN : 7 ≤ N
    · rw [List.range'_concat, List.filter_append, ih hN]
      have hno : isFailPage (1 + N) = false := by
        simp only [isFailPage, Bool.or_eq_false_iff, beq_eq_false_iff_ne]
        omega
      simp [List.filter_cons, hno]
    · have h6 : N = 6 := by omega
      subst h6
      decide

theorem pageFileName_view (dir : Str) (n : Nat) :
    pageFileName dir n = (dir ++ ('/' :: ("page_".data))) ++ (zpad 4 n ++ (".jpg".data)) := by
  simp [pageFileName, List.append_assoc]

theorem pageFileName_mono (dir : Str) (a b : Nat) (hab : a < b) (hb : b < 10000) :
    lexLe (pageFileName dir a) (pageFileName dir b) = true := by
  have hpow : (10 : Nat) ^ 4 = 10000 := by norm_num
  have ha4 : (zpad 4 a).length = 4 := zpad_length 4 a (by omega) (by omega)
  have hb4 : (zpad 4 b).length = 4 := zpad_length 4 b (by omega) (by omega)
  have hlt : lexLt (zpad 4 a) (zpad 4 b) = true := by
    apply decode_lt_lexLt _ _ (zpad_digits 4 a) (zpad_digits 4 b) (by rw [ha4, hb4])
    rw [decodeD_zpad, decodeD_zpad]
    exact hab
  have happ : lexLt (zpad 4 a ++ (".jpg".data)) (zpad 4 b ++ (".jpg".data)) = true :=
    lexLt_append _ _ _ _ (by rw [ha4, hb4]) hlt
  have hfull : lexLt (pageFileName dir a) (pageFileName dir b) = true := by
    rw [pageFileName_view, pageFileName_view]
    exact lexLt_prepend _ _ _ happ
  exact lexLt_le _ _ hfull

/-- C4 (amended): for N tasks (pages 1..N with N between 7 and 9999) finishing
in any completion order, against a backend answering pages 3 and 7 with status
404 and every other page with status 200 and a payload of strictly more than
10000 bytes, fetchAll returns a success list that is exactly the page files of
all pages other than 3 and 7 sorted by page number, of length N - 2, and a
failure list whose pages are exactly 3 and 7. (The source's success test is
len(content) > 10000, strictly; and sorting the 4-digit-padded file names agrees
with page order only while pages stay below 10000.) -/
theorem fetchAll_success_sorted_failures_exact
    (N : Nat) (hN7 : 7 ≤ N) (hN : N ≤ 9999)
    (dir : Str) (completed : List Nat) (hperm : completed.Perm (List.range' 1 N))
    (backend : Nat → Except Str Response) (L : Nat → Nat) (e3 e7 : Nat)
    (hb3 : backend 3 = Except.ok ⟨404, e3⟩) (hb7 : backend 7 = Except.ok ⟨404, e7⟩)
    (hbok : ∀ p, p ≠ 3 → p ≠ 7 → backend p = Except.ok ⟨200, L p⟩)
    (hL : ∀ p, 10000 < L p) :
    (fetchAll backend dir completed).1 =
      ((List.range' 1 N).filter (fun p => !isFailPage p)).map (pageFileName dir) ∧
    (fetchAll backend dir completed).1.length = N - 2 ∧
    ((fetchAll backend dir completed).2.map Prod.fst).Perm [3, 7] := by
  have hsucc : ∀ p, (telecharger_page (backend p) dir p).2.1 =
      if !isFailPage p then some (pageFileName dir p) else none := by
    intro p
    by_cases h3 : p = 3
    · subst h3
      rw [hb3]
      simp [telecharger_page, isFailPage]
    by_cases h7 : p = 7
    · subst h7
      rw [hb7]
      simp [telecharger_page, isFailPage]
    · rw [hbok p h3 h7]
      simp [telecharger_page, isFailPage, h3, h7, hL p]
  have hfail : ∀ p, (match telecharger_page (backend p) dir p with
      | (_, some _, _) => none
      | (q, none, e) => some (q, e)) =
      if isFailPage p then some (p, (telecharger_page (backend p) dir p).2.2) else none := by
    intro p
    by_cases h3 : p = 3
    · subst h3
      rw [hb3]
      simp [telecharger_page, isFailPage]
    by_cases h7 : p = 7
    · subst h7
      rw [hb7]
      simp [telecharger_page, isFailPage]
    · rw [hbok p h3 h7]
      simp [telecharger_page, isFailPage, h3, h7, hL p]
  have hcoll := collectResults_eq backend dir completed
  have hfs : (collectResults backend dir completed).1 =
      (completed.filter (fun p => !isFailPage p)).map (pageFileName dir) := by
    rw [hcoll]
    exact filterMap_eq_map_filter completed _ _ _ (fun p _ => hsucc p)
  have hes : (collectResults backend dir completed).2 =
      (completed.filter isFailPage).map
        (fun p => (p, (telecharger_page (backend p) dir p).2.2)) := by
    rw [hcoll]
    exact filterMap_eq_map_filter completed _ _ _ (fun p _ => hfail p)
  have hpermfs : (collectResults backend dir completed).1.Perm
      (((List.range' 1 N).filter (fun p => !isFailPage p)).map (pageFileName dir)) := by
    rw [hfs]
    exact (hperm.filter _).map _
  have hsorted_target : List.Pairwise (fun a b => lexLe a b = true)
      (((List.range' 1 N).filter (fun p => !isFailPage p)).map (pageFileName dir)) := by
    have h0 := List.pairwise_lt_range' 1 N 1
    have h1 := List.Pairwise.sublist (List.filter_sublist (p := fun p => !isFailPage p) (List.range' 1 N)) h0
    rw [List.pairwise_map]
    apply List.Pairwise.imp_of_mem ?_ h1
    intro a b ha hb hab
    apply pageFileName_mono dir a b hab
    have hbmem := List.mem_filter.mp hb
    obtain ⟨i, hi, rfl⟩ := List.mem_range'.mp hbmem.1
    omega
  have htotal : ∀ a b : Str, (lexLe a b || lexLe b a) = true := by
    intro a b
    rcases lexLe_total a b with h | h <;> simp [h]
  have hsorted_ms : List.Pairwise (fun a b : Str => lexLe a b = true)
      ((collectResults backend dir completed).1.mergeSort lexLe) :=
    List.sorted_mergeSort lexLe_trans htotal _
  have hmseq : (collectResults backend dir completed).1.mergeSort lexLe =
      (((List.range' 1 N).filter (fun p => !isFailPage p)).map (pageFileName dir)) := by
    apply List.eq_of_perm_of_sorted (r := fun a b : Str => lexLe a b = true)
    · exact (List.mergeSort_perm _ lexLe).trans hpermfs
    · exact hsorted_ms
    · exact hsorted_target
  have hview1 : (fetchAll backend dir completed).1 =
      (collectResults backend dir completed).1.mergeSort lexLe := rfl
  have hview2 : (fetchAll backend dir completed).2 =
      (collectResults backend dir completed).2 := rfl
  refine ⟨?_, ?_, ?_⟩
  · rw [hview1, hmseq]
  · rw [hview1, hmseq, List.length_map]
    have hcompl := length_filter_add_length_filter_not (List.range' 1 N) isFailPage
    rw [List.length_range', range_filter_37 N hN7] at hcompl
    simp only [List.length_cons, List.length_nil] at hcompl
    omega
  · rw [hview2, hes, List.map_map]
    have hcomp : (Prod.fst ∘ fun p : Nat => (p, (telecharger_page (backend p) dir p).2.2)) =
        fun p : Nat => p := rfl
    rw [hcomp]
    have hid : (completed.filter isFailPage).map (fun p : Nat => p)
        = completed.filter isFailPage := by simp
    rw [hid]
    have hp := hperm.filter isFailPage
    rw [range_filter_37 N hN7] at hp
    exact hp

/-- The backend of the C4 counterexample: pages 3 and 7 get a 404, every other
page gets status 200 with a payload of exactly 10000 bytes — which satisfies
the claim's "at least 10000 bytes". -/
def backendAtThreshold : Nat → Except Str Response := fun p =>
  if p = 3 ∨ p = 7 then Except.ok ⟨404, 50⟩ else Except.ok ⟨200, 10000⟩

/-- C4 counterexample: with N = 7 tasks against a backend satisfying the
claim's premise (pages 3 and 7 answer 404, all others answer 200 with at least
10000 bytes — here exactly 10000), the success list is empty, not of the
claimed length N - 2 = 5: the code accepts only payloads strictly larger than
10000 bytes. -/
theorem fetchAll_threshold_counterexample :
    (fetchAll backendAtThreshold ("d".data) [1, 2, 3, 4, 5, 6, 7]).1.length = 0 ∧
    (fetchAll backendAtThreshold ("d".data) [1, 2, 3, 4, 5, 6, 7]).1.length ≠ 7 - 2 := by
  have h1 : (collectResults backendAtThreshold ("d".data) [1, 2, 3, 4, 5, 6, 7]).1 = [] := by
    decide
  have h2 : (fetchAll backendAtThreshold ("d".data) [1, 2, 3, 4, 5, 6, 7]).1
      = ([] : List Str).mergeSort lexLe := by
    show (collectResults backendAtThreshold ("d".data) [1, 2, 3, 4, 5, 6, 7]).1.mergeSort lexLe
      = ([] : List Str).mergeSort lexLe
    rw [h1]
  rw [h2, List.mergeSort_nil]
  exact ⟨rfl, by decide⟩

/-- The backend of the C4 witness: pages 3 and 7 get a 404, every other page
gets status 200 with 20000 bytes. -/
def backendW4 : Nat → Except Str Response := fun p =>
  if p = 3 ∨ p = 7 then Except.ok ⟨404, 50⟩ else Except.ok ⟨200, 20000⟩

theorem fetchAll_success_sorted_failures_exact_witness :
    (fetchAll backendW4 ("d".data) [7, 1, 2, 3, 4, 5, 6]).1 =
      ((List.range' 1 7).filter (fun p => !isFailPage p)).map (pageFileName ("d".data)) ∧
    (fetchAll backendW4 ("d".data) [7, 1, 2, 3, 4, 5, 6]).1.length = 7 - 2 ∧
    ((fetchAll backendW4 ("d".data) [7, 1, 2, 3, 4, 5, 6]).2.map Prod.fst).Perm [3, 7] :=
  fetchAll_success_sorted_failures_exact 7 (by decide) (by decide) ("d".data)
    [7, 1, 2, 3, 4, 5, 6] (by decide) backendW4 (fun _ => 20000) 50 50 rfl rfl
    (fun p h3 h7 => by simp [backendW4, h3, h7])
    (fun p => by show (10000 : Nat) < 20000; decide)
